import Mathlib

/-!
Verification of the EB1-A intake application (`src/app.py`, `src/agents/visa_agent.py`).

The development shallowly embeds the response-contract parser
(`parse_agent_response`, app.py lines 18-49), Python's `json.loads` (RFC 8259
grammar plus Python's `NaN`/`Infinity` extensions), and the module-level
Streamlit handlers (PDF upload, LinkedIn submission, chat-input turn) as pure
Lean functions over `List Char`.  Python strings are `List Char`; Python's
`None` for the `Optional[dict]` result is `Option.none`; mutation of
`st.session_state` is explicit state passing on `AppState`.
-/

namespace VettingAgent
/-- Python strings are modelled as lists of characters. -/
abbrev Str := List Char

/-- The whitespace characters removed by Python's `str.strip()` (ASCII part). -/
def pyWs (c : Char) : Bool :=
  c = ' ' || c = '\t' || c = '\n' || c = '\r' || c = '\x0b' || c = '\x0c'

/-- JSON inter-token whitespace (RFC 8259), the characters `json.loads` skips. -/
def jsonWs (c : Char) : Bool :=
  c = ' ' || c = '\t' || c = '\n' || c = '\r'

/-- Skip leading JSON whitespace. -/
def skipWs (cs : Str) : Str := cs.dropWhile jsonWs

/-- Python `str.lstrip()`. -/
def ltrimPy (cs : Str) : Str := cs.dropWhile pyWs

/-- Python `str.rstrip()`. -/
def rtrimPy (cs : Str) : Str := (cs.reverse.dropWhile pyWs).reverse

/-- Python `str.strip()`. -/
def pyTrim (cs : Str) : Str := ltrimPy (rtrimPy cs)

/-- Python `str.startswith(p)`. -/
def startsWithL : Str → Str → Bool
  | [], _ => true
  | _ :: _, [] => false
  | p :: ps, c :: cs => p == c && startsWithL ps cs

/-- Python `str.endswith(p)`. -/
def endsWithL (p s : Str) : Bool := startsWithL p.reverse s.reverse

/-- Index of the first occurrence of `pat` in `text` (the position at which a
regex engine scanning left to right first anchors a literal match). -/
def findSub (pat : Str) : Str → Option Nat
  | [] => if startsWithL pat [] then some 0 else none
  | c :: t =>
    if startsWithL pat (c :: t) then some 0
    else (findSub pat (c :: t).tail).map (fun n => n + 1)

/-- Embedding of `re.search(open + "(.*?)" + close, text, re.DOTALL)` returning
the lazy group: the match anchors at the first occurrence of the literal open
tag (`re.search` is leftmost-first, and a close tag occurring after any open
tag also occurs after the first one, so the leftmost anchored position is the
first open-tag occurrence), and the lazy `(.*?)` stops at the first occurrence
of the close tag after it. -/
def extractTag (openT closeT text : Str) : Option Str :=
  match findSub openT text with
  | none => none
  | some i =>
    let rest := text.drop (i + openT.length)
    match findSub closeT rest with
    | none => none
    | some k => some (rest.take k)

/-! ### JSON values and the embedding of Python's `json.loads` -/

/-- Python values produced by `json.loads`: JSON values plus Python's default
`NaN` / `Infinity` extensions.  Numbers keep their parsed lexical parts
(sign, integer digits, fraction digits, optional exponent), which is enough
to decide Python truthiness. -/
inductive Json where
  | null
  | bool (b : Bool)
  | num (neg : Bool) (ip : Str) (fp : Str) (ex : Option (Bool × Str))
  | nan
  | inf (neg : Bool)
  | str (s : Str)
  | arr (elems : List Json)
  | obj (members : List (Str × Json))

/-- Python truthiness (`bool(v)`) of a loaded JSON value. -/
def Json.truthy : Json → Bool
  | .null => false
  | .bool b => b
  | .num _ ip fp _ => !(ip = ['0'] && fp.all (fun c => c = '0'))
  | .nan => true
  | .inf _ => true
  | .str s => !s.isEmpty
  | .arr xs => !xs.isEmpty
  | .obj kvs => !kvs.isEmpty

/-- Hex digit value, for `\uXXXX` string escapes. -/
def hexVal (c : Char) : Option Nat :=
  if '0' ≤ c ∧ c ≤ '9' then some (c.toNat - '0'.toNat)
  else if 'a' ≤ c ∧ c ≤ 'f' then some (c.toNat - 'a'.toNat + 10)
  else if 'A' ≤ c ∧ c ≤ 'F' then some (c.toNat - 'A'.toNat + 10)
  else none

/-- Single-character JSON string escapes. -/
def escChar (c : Char) : Option Char :=
  if c = '"' then some '"'
  else if c = '\\' then some '\\'
  else if c = '/' then some '/'
  else if c = 'b' then some '\x08'
  else if c = 'f' then some '\x0c'
  else if c = 'n' then some '\n'
  else if c = 'r' then some '\r'
  else if c = 't' then some '\t'
  else none

/-- Scan a JSON string body (the characters after the opening quote) up to the
closing quote, decoding escapes; returns the decoded string and the rest of
the input after the closing quote.  Unescaped control characters are rejected
(strict mode, as in `json.loads`).  Lone `\uXXXX` escapes are decoded with
`Char.ofNat` (surrogate-pair joining is not modelled; no claim depends on it). -/
def parseStrBody : Str → Option (Str × Str)
  | [] => none
  | c :: cs =>
    if c = '"' then some ([], cs)
    else if c = '\\' then
      match cs with
      | [] => none
      | e :: cs2 =>
        if e = 'u' then
          match cs2 with
          | h1 :: h2 :: h3 :: h4 :: cs3 =>
            match hexVal h1, hexVal h2, hexVal h3, hexVal h4 with
            | some a, some b, some c4, some d4 =>
              (parseStrBody cs3).map
                (fun p => (Char.ofNat (a * 4096 + b * 256 + c4 * 16 + d4) :: p.1, p.2))
            | _, _, _, _ => none
          | _ => none
        else
          match escChar e with
          | none => none
          | some ch => (parseStrBody cs2).map (fun p => (ch :: p.1, p.2))
    else if c.toNat < 0x20 then none
    else (parseStrBody cs).map (fun p => (c :: p.1, p.2))

/-- Integer part of a JSON number: `0` or a nonzero digit followed by digits
(leading zeros rejected, as in `json.loads`). -/
def parseIntPart : Str → Option (Str × Str)
  | [] => none
  | c :: cs =>
    if c = '0' then some (['0'], cs)
    else if '1' ≤ c ∧ c ≤ '9' then
      some (c :: cs.takeWhile Char.isDigit, cs.dropWhile Char.isDigit)
    else none

/-- Optional fraction `.digits` of a JSON number; consumes nothing when the
pattern is absent or incomplete (as the regex `(\.\d+)?` would). -/
def tryFrac (cs : Str) : Str × Str :=
  match cs with
  | c :: cs2 =>
    if c = '.' then
      match cs2.takeWhile Char.isDigit with
      | [] => ([], cs)
      | ds => (ds, cs2.dropWhile Char.isDigit)
    else ([], cs)
  | [] => ([], cs)

/-- Optional sign before the exponent digits. -/
def signSplit (cs2 : Str) : Bool × Str :=
  match cs2 with
  | c :: r => if c = '+' then (false, r) else if c = '-' then (true, r) else (false, cs2)
  | [] => (false, cs2)

/-- Optional exponent `[eE][+-]?digits` of a JSON number; consumes nothing when
absent or incomplete. -/
def tryExp (cs : Str) : Option (Bool × Str) × Str :=
  match cs with
  | e :: cs2 =>
    if e = 'e' ∨ e = 'E' then
      let sp : Bool × Str := signSplit cs2
      match sp.2.takeWhile Char.isDigit with
      | [] => (none, cs)
      | ds => (some (sp.1, ds), sp.2.dropWhile Char.isDigit)
    else (none, cs)
  | [] => (none, cs)

/-- Number tail after the optional sign: integer part, then optional fraction
and exponent; falls back to the `-Infinity` literal (checked on the original
input) as Python's scanner does. -/
def numFromIntPart (neg : Bool) (base orig : Str) : Option (Json × Str) :=
  match parseIntPart base with
  | some (ip, cs2) =>
    some (.num neg ip (tryFrac cs2).1 (tryExp (tryFrac cs2).2).1,
      (tryExp (tryFrac cs2).2).2)
  | none =>
    match orig with
    | '-' :: 'I' :: 'n' :: 'f' :: 'i' :: 'n' :: 'i' :: 't' :: 'y' :: r =>
      some (.inf true, r)
    | _ => none

/-- Parse a JSON number (the `NUMBER_RE` regex of Python's `json` module),
falling back to the `-Infinity` literal as the scanner does. -/
def parseNum (cs : Str) : Option (Json × Str) :=
  match cs with
  | c :: r => if c = '-' then numFromIntPart true r cs else numFromIntPart false cs cs
  | [] => none

mutual

/-- Parse one JSON value at the head of the input (no leading whitespace);
fuel bounds the recursion depth. -/
def parseVal : Nat → Str → Option (Json × Str)
  | 0, _ => none
  | Nat.succ _, [] => none
  | Nat.succ f, c :: cs =>
    if c = 'n' then
      match cs with
      | 'u' :: 'l' :: 'l' :: r => some (.null, r)
      | _ => none
    else if c = 't' then
      match cs with
      | 'r' :: 'u' :: 'e' :: r => some (.bool true, r)
      | _ => none
    else if c = 'f' then
      match cs with
      | 'a' :: 'l' :: 's' :: 'e' :: r => some (.bool false, r)
      | _ => none
    else if c = 'N' then
      match cs with
      | 'a' :: 'N' :: r => some (.nan, r)
      | _ => none
    else if c = 'I' then
      match cs with
      | 'n' :: 'f' :: 'i' :: 'n' :: 'i' :: 't' :: 'y' :: r => some (.inf false, r)
      | _ => none
    else if c = '"' then
      (parseStrBody cs).map (fun p => (.str p.1, p.2))
    else if c = '{' then
      match skipWs cs with
      | '}' :: r => some (.obj [], r)
      | cs2 => (parseMembers f cs2).map (fun p => (.obj p.1, p.2))
    else if c = '[' then
      match skipWs cs with
      | ']' :: r => some (.arr [], r)
      | cs2 => (parseElems f cs2).map (fun p => (.arr p.1, p.2))
    else parseNum (c :: cs)

/-- Parse a nonempty comma-separated list of `"key": value` members followed
by `}`. -/
def parseMembers : Nat → Str → Option (List (Str × Json) × Str)
  | 0, _ => none
  | Nat.succ f, cs =>
    match cs with
    | '"' :: cs1 =>
      match parseStrBody cs1 with
      | none => none
      | some (k, r1) =>
        match skipWs r1 with
        | ':' :: r2 =>
          match parseVal f (skipWs r2) with
          | none => none
          | some (v, r3) =>
            match skipWs r3 with
            | ',' :: r4 =>
              (parseMembers f (skipWs r4)).map (fun p => ((k, v) :: p.1, p.2))
            | '}' :: r4 => some ([(k, v)], r4)
            | _ => none
        | _ => none
    | _ => none

/-- Parse a nonempty comma-separated list of values followed by `]`. -/
def parseElems : Nat → Str → Option (List Json × Str)
  | 0, _ => none
  | Nat.succ f, cs =>
    match parseVal f cs with
    | none => none
    | some (v, r1) =>
      match skipWs r1 with
      | ',' :: r2 => (parseElems f (skipWs r2)).map (fun p => (v :: p.1, p.2))
      | ']' :: r2 => some ([v], r2)
      | _ => none

end

/-- Embedding of Python's `json.loads`: skip surrounding whitespace, parse one
value, require the whole input consumed.  `none` models `JSONDecodeError`.
The fuel `length + 1` never runs out: every recursive call, whether deeper or
sequential, consumes at least one input character first. -/
def json_loads (s : Str) : Option Json :=
  match parseVal (s.length + 1) (skipWs s) with
  | some (v, rest) => if skipWs rest = [] then some v else none
  | none => none

/-! ### What a successful parse consumes

A successful parse consumes a nonempty prefix whose last character is never a
backtick (values end in a quote, a digit, a closing bracket/brace, or the last
letter of a literal).  This is what makes the markdown-fence stripping in
`parse_agent_response` harmless on valid JSON. -/

/-- The parse step consumed a nonempty chunk ending in a non-backtick. -/
def endsOk (cs rest : Str) : Prop := ∃ pre c', c' ≠ '`' ∧ cs = pre ++ c' :: rest

/-! ### The response-contract parser (`parse_agent_response`, app.py 18-49) -/

/-- The literal open tag of the conversational region. -/
def convoOpen : Str := "<conversation_response>".toList

/-- The literal close tag of the conversational region. -/
def convoClose : Str := "</conversation_response>".toList

/-- The literal open tag of the structured-data region. -/
def dataOpen : Str := "<updated_data>".toList

/-- The literal close tag of the structured-data region. -/
def dataClose : Str := "</updated_data>".toList

/-- The leading markdown fence token stripped by the parser (`"` ```json `"`). -/
def fenceO : Str := "```json".toList

/-- The trailing markdown fence token stripped by the parser (`"` ``` `"`). -/
def fenceC : Str := "```".toList

/-- `if json_str.startswith("` ```json `"): json_str = json_str[7:]`
(app.py 38). -/
def stripLeadFence (s : Str) : Str :=
  if startsWithL fenceO s then s.drop 7 else s

/-- `if json_str.endswith("` ``` `"): json_str = json_str[:-3]` (app.py 39). -/
def stripTrailFence (s : Str) : Str :=
  if endsWithL fenceC s then s.take (s.length - 3) else s

/-- The cleaning applied to the structured-data region before `json.loads`
(app.py 35-41): strip, drop a leading `"` ```json `"` (7 characters), drop a
trailing `"` ``` `"` (3 characters), strip again. -/
def cleanJsonStr (g : Str) : Str :=
  pyTrim (stripTrailFence (stripLeadFence (pyTrim g)))

/-- The Python value held by the `Optional[dict]` variable `updated_data_dict`
after a successful `json.loads`: Python's `None` and JSON `null` are the same
object, so a loaded top-level `null` is indistinguishable from the variable's
initial `None`. -/
def toPy : Json → Option Json
  | .null => none
  | v => some v

/-- `convo_response` (app.py 28, 31): the trimmed conversational region if the
regex matches, otherwise the whole raw text. -/
def displayOf (text : Str) : Str :=
  match extractTag convoOpen convoClose text with
  | some g => pyTrim g
  | none => text

/-- `updated_data_dict` (app.py 29, 32-48): `none` when the structured-data
region is absent or `json.loads` raises `JSONDecodeError` (caught at 43). -/
def updatedOf (text : Str) : Option Json :=
  match extractTag dataOpen dataClose text with
  | none => none
  | some g =>
    match json_loads (cleanJsonStr g) with
    | none => none
    | some v => toPy v

/-- `parse_agent_response` (app.py 18-49). -/
def parse_agent_response (text : Str) : Str × Option Json :=
  (displayOf text, updatedOf text)

/-! ### The Streamlit session model (app.py module level) -/

/-- Chat roles used in `st.session_state.messages`. -/
inductive Role where
  | user
  | assistant
  | system
  deriving DecidableEq

/-- The mutable `st.session_state` fields the chat turn and the side-channel
handlers touch. -/
structure AppState where
  messages : List (Role × Str)
  collected_data : Json
  pending_pdf : Option Str
  pending_linkedin : Option Str
  pdf_processed : Bool
  linkedin_processed : Bool

/-- `"\n\nUser's message: "`, the separator used when prepending a pending
context note (app.py 184, 186). -/
def userMsgTag : Str := "\n\nUser\x27s message: ".toList

/-- Prefix of the system error chat entry (app.py 205). -/
def errPre : Str := "Error: ".toList

/-- One `if st.session_state.get(key): agent_input = st.session_state.pop(key)
+ "\n\nUser's message: " + agent_input` step (app.py 183-186): the note is
consumed only when present and truthy (non-empty). -/
def popPending (p : Option Str) (acc : Str) : Str × Option Str :=
  match p with
  | some c => if c.isEmpty then (acc, p) else (c ++ userMsgTag ++ acc, none)
  | none => (acc, none)

/-- The composed `agent_input` for a user turn: PDF note applied first, then
LinkedIn note (app.py 182-186). -/
def composeInput (st : AppState) (prompt : Str) : Str :=
  (popPending st.pending_linkedin (popPending st.pending_pdf prompt).1).1

/-- One chat-input turn (app.py 173-205) on a session whose agent chain is
initialized (the `else` branch at 176), `predict` being the completion
collaborator (`st.session_state.agent_chain.predict`).  Returns the new state
and the surfaced turn-level error (`st.error`, app.py 204), if any. -/
def chatTurn (st : AppState) (prompt : Str)
    (predict : Str → Except Str Str) : AppState × Option Str :=
  let msgs1 := st.messages ++ [(Role.user, prompt)]
  let p1 := popPending st.pending_pdf prompt
  let p2 := popPending st.pending_linkedin p1.1
  let st2 : AppState :=
    { st with messages := msgs1, pending_pdf := p1.2, pending_linkedin := p2.2 }
  match predict p2.1 with
  | .error e =>
    ({ st2 with messages := st2.messages ++ [(Role.system, errPre ++ e)] }, some e)
  | .ok raw =>
    let pr := parse_agent_response raw
    let st3 : AppState :=
      { st2 with messages := st2.messages ++ [(Role.assistant, pr.1)] }
    match pr.2 with
    | some u => if u.truthy then ({ st3 with collected_data := u }, none) else (st3, none)
    | none => (st3, none)

/-- Python `dict` lookup on the association list produced by the JSON parser:
a later duplicate key wins, as in `dict` construction. -/
def dictLookup : List (Str × Json) → Str → Option Json
  | [], _ => none
  | (k', v) :: rest, k =>
    match dictLookup rest k with
    | some r => some r
    | none => if k' = k then some v else none

/-- Python `d[k] = v` on a `dict`: replace in place, else append. -/
def dictSet : List (Str × Json) → Str → Json → List (Str × Json)
  | [], k, v => [(k, v)]
  | (k', v') :: rest, k, v =>
    if k' = k then (k', v) :: rest else (k', v') :: dictSet rest k v

/-- `st.session_state.collected_data[k1][k2] = v` (app.py 132, 146); `none`
models the `KeyError`/`TypeError` when the nested dict is missing. -/
def setRecordField2 (j : Json) (k1 k2 : Str) (v : Json) : Option Json :=
  match j with
  | .obj kvs =>
    match dictLookup kvs k1 with
    | some (.obj inner) => some (.obj (dictSet kvs k1 (.obj (dictSet inner k2 v))))
    | _ => none
  | _ => none

/-- The pending-context note produced by the PDF handler (app.py 128). -/
def pdfNote (name text : Str) : Str :=
  "(System note: The user has uploaded a PDF named \x27".toList ++ name ++
    "\x27. Its extracted text content begins: \n\n".toList ++ text.take 1500 ++
    " ... [truncated])".toList

/-- The pending-context note produced by the LinkedIn handler (app.py 142). -/
def linkedinNote (url : Str) : Str :=
  "(System note: User provided LinkedIn URL: ".toList ++ url ++
    (". You cannot access external URLs, but acknowledge receipt and ask the " ++
      "user to highlight relevant info from it if needed.)").toList

/-- The PDF-upload handler (app.py 124-137), `extracted` being the result of
the `extract_text_from_pdf` collaborator; skipped once `pdf_processed`. -/
def pdfUpload (st : AppState) (name : Str) (extracted : Option Str) : Option AppState :=
  if st.pdf_processed then some st
  else
    match extracted with
    | some text =>
      (setRecordField2 st.collected_data "supporting_documents".toList
          "resume_file".toList (.str name)).map fun cd =>
        { st with
          pending_pdf := some (pdfNote name text)
          pdf_processed := true
          collected_data := cd }
    | none => some { st with pdf_processed := true }

/-- The LinkedIn-URL handler (app.py 139-147); runs only for a truthy URL and
only once. -/
def linkedinSubmit (st : AppState) (url : Str) : Option AppState :=
  if st.linkedin_processed || url.isEmpty then some st
  else
    (setRecordField2 st.collected_data "supporting_documents".toList
        "linkedin_url".toList (.str url)).map fun cd =>
      { st with
        pending_linkedin := some (linkedinNote url)
        linkedin_processed := true
        collected_data := cd }

/-- `EB1AData().dict()` (visa_agent.py): the blank record with its defaults. -/
def initialRecord : Json :=
  .obj
    [("basic_information".toList,
      .obj
        [("first_name".toList, .str []), ("last_name".toList, .str []),
          ("email".toList, .str []), ("phone".toList, .str [])]),
      ("visa_and_role".toList,
        .obj
          [("visa_interest".toList, .str "EB1-A".toList),
            ("industry".toList, .str []), ("job_title".toList, .str [])]),
      ("eb1a_criteria".toList,
        .obj
          [("awards_description".toList, .str []),
            ("association_membership_description".toList, .str []),
            ("published_material_description".toList, .str []),
            ("judging_work_description".toList, .str []),
            ("original_contributions_description".toList, .str []),
            ("scholarly_articles_description".toList, .str []),
            ("artistic_showcases_description".toList, .str []),
            ("leading_role_description".toList, .str []),
            ("high_salary_description".toList, .str []),
            ("commercial_success_description".toList, .str [])]),
      ("supporting_documents".toList,
        .obj
          [("linkedin_url".toList, .str []), ("resume_file".toList, .str [])])]

/-- The session state right after initialization (app.py 58-65). -/
def initialState : AppState :=
  { messages := []
    collected_data := initialRecord
    pending_pdf := none
    pending_linkedin := none
    pdf_processed := false
    linkedin_processed := false }

/-- The four top-level keys of the Record Schema (`EB1AData`). -/
def schemaTopKeys : List Str :=
  ["basic_information".toList, "visa_and_role".toList, "eb1a_criteria".toList,
    "supporting_documents".toList]

/-- Read `record[k1][k2]` from a loaded record (for stating what a record
holds). -/
def recordField2 (j : Json) (k1 k2 : Str) : Option Json :=
  match j with
  | .obj kvs =>
    match dictLookup kvs k1 with
    | some (.obj inner) => dictLookup inner k2
    | _ => none
  | _ => none

/-! ### Concrete completion texts used by the claim witnesses -/

/-- A well-formed completion: both regions, valid JSON object. -/
def wText1 : Str :=
  ("<conversation_response>Hi!</conversation_response>" ++
    "<updated_data>\x7b\"a\": \"b\"\x7d</updated_data>").toList

/-- The structured-data inner text of `wText1`. -/
def wData1 : Str := "\x7b\"a\": \"b\"\x7d".toList

/-- The JSON value loaded from `wData1`. -/
def wJson1 : Json := Json.obj [("a".toList, Json.str "b".toList)]

/-- A completion whose structured-data region has a trailing comma. -/
def wText2 : Str :=
  ("<conversation_response>ok</conversation_response>" ++
    "<updated_data>\x7b\"a\": 1,\x7d</updated_data>").toList

/-- The structured-data inner text of `wText2` (invalid JSON). -/
def wData2 : Str := "\x7b\"a\": 1,\x7d".toList

/-- Fence-wrapped valid JSON (both markers). -/
def wText3 : Str :=
  "<updated_data>```json\n\x7b\"k\": true\x7d\n```</updated_data>".toList

/-- The structured-data inner text of `wText3`. -/
def wData3 : Str := "```json\n\x7b\"k\": true\x7d\n```".toList

/-- The JSON between the fences of `wText3`. -/
def wBody3 : Str := "\n\x7b\"k\": true\x7d\n".toList

/-- The value loaded from `wBody3`. -/
def wJson3 : Json := Json.obj [("k".toList, Json.bool true)]

/-- Valid JSON with only the leading fence marker. -/
def wText4 : Str := "<updated_data>```json\n\x7b\"k\": 1\x7d</updated_data>".toList

/-- The structured-data inner text of `wText4`. -/
def wData4 : Str := "```json\n\x7b\"k\": 1\x7d".toList

/-- The JSON after the leading fence of `wText4`. -/
def wBody4 : Str := "\n\x7b\"k\": 1\x7d".toList

/-- The value loaded from `wBody4`. -/
def wJson4 : Json := Json.obj [("k".toList, Json.num false ['1'] [] none)]

/-- Valid JSON with only the trailing fence marker. -/
def wText5 : Str := "<updated_data>\x7b\"k\": 2\x7d\n```</updated_data>".toList

/-- The structured-data inner text of `wText5`. -/
def wData5 : Str := "\x7b\"k\": 2\x7d\n```".toList

/-- The JSON before the trailing fence of `wText5`. -/
def wBody5 : Str := "\x7b\"k\": 2\x7d\n".toList

/-- The value loaded from `wBody5`. -/
def wJson5 : Json := Json.obj [("k".toList, Json.num false ['2'] [] none)]

/-- A completion whose structured-data region is the JSON literal `null`. -/
def wText7 : Str :=
  "<conversation_response>x</conversation_response><updated_data>null</updated_data>".toList

/-- A completion whose structured-data region is an empty JSON object. -/
def wText8 : Str :=
  "<conversation_response>x</conversation_response><updated_data>\x7b\x7d</updated_data>".toList

/-- The session state after the LinkedIn handler ran on a fresh session. -/
def c4state : AppState :=
  (linkedinSubmit initialState "http://x".toList).getD initialState

/-- The session state after a PDF upload and then a LinkedIn submission (the
PDF note is produced first). -/
def c6state : AppState :=
  ((pdfUpload initialState "r.pdf".toList (some "RESUME TEXT".toList)).bind
    (fun st => linkedinSubmit st "http://li".toList)).getD initialState

/-! ### Basic lemmas about the string utilities -/

theorem startsWithL_iff_append : ∀ p s : Str, startsWithL p s = true ↔ ∃ t, s = p ++ t := by
  intro p
  induction p with
  | nil => intro s; simp [startsWithL]
  | cons a ps ih =>
    intro s
    cases s with
    | nil => simp [startsWithL]
    | cons c cs =>
      simp only [startsWithL, Bool.and_eq_true, beq_iff_eq]
      constructor
      · rintro ⟨rfl, h⟩
        obtain ⟨t, rfl⟩ := (ih cs).1 h
        exact ⟨t, rfl⟩
      · rintro ⟨t, ht⟩
        cases ht
        exact ⟨rfl, (ih _).2 ⟨t, rfl⟩⟩

theorem startsWithL_append (p t : Str) : startsWithL p (p ++ t) = true :=
  (startsWithL_iff_append p (p ++ t)).2 ⟨t, rfl⟩

theorem endsWithL_iff_append (p s : Str) : endsWithL p s = true ↔ ∃ t, s = t ++ p := by
  unfold endsWithL
  rw [startsWithL_iff_append]
  constructor
  · rintro ⟨t, ht⟩
    refine ⟨t.reverse, ?_⟩
    have := congrArg List.reverse ht
    simpa using this
  · rintro ⟨t, rfl⟩
    exact ⟨t.reverse, by simp⟩

theorem endsWithL_append (t p : Str) : endsWithL p (t ++ p) = true :=
  (endsWithL_iff_append p (t ++ p)).2 ⟨t, rfl⟩

/-- If a list ends with `"` ``` `"` then its last character is a backtick. -/
theorem endsWithL_fence_getLast {s : Str}
    (h : endsWithL ['`', '`', '`'] s = true) : s.getLast? = some '`' := by
  obtain ⟨t, rfl⟩ := (endsWithL_iff_append _ s).1 h
  rw [show t ++ ['`', '`', '`'] = (t ++ ['`', '`']) ++ ['`'] by simp]
  exact List.getLast?_concat _

theorem dropWhile_head?_not {p : α → Bool} :
    ∀ {l : List α} {c : α}, (l.dropWhile p).head? = some c → p c = false := by
  intro l
  induction l with
  | nil => intro c h; simp [List.dropWhile] at h
  | cons a t ih =>
    intro c h
    by_cases hp : p a
    · rw [List.dropWhile_cons_of_pos hp] at h
      exact ih h
    · rw [List.dropWhile_cons_of_neg hp] at h
      simp only [List.head?_cons, Option.some.injEq] at h
      subst h
      simpa using hp

theorem dropWhile_eq_self_of_head {p : α → Bool} {l : List α} {c : α}
    (hh : l.head? = some c) (hp : p c = false) : l.dropWhile p = l := by
  cases l with
  | nil => simp at hh
  | cons a t =>
    simp only [List.head?_cons, Option.some.injEq] at hh
    cases hh
    exact List.dropWhile_cons_of_neg (by simp [hp])

theorem dropWhile_exists_prefix {p : α → Bool} :
    ∀ l : List α, ∃ w, l = w ++ l.dropWhile p := by
  intro l
  induction l with
  | nil => exact ⟨[], rfl⟩
  | cons a t ih =>
    by_cases hp : p a
    · obtain ⟨w, hw⟩ := ih
      exact ⟨a :: w, by rw [List.dropWhile_cons_of_pos hp]; simpa using hw⟩
    · exact ⟨[], by rw [List.dropWhile_cons_of_neg hp]; simp⟩

theorem skipWs_exists_prefix (l : Str) : ∃ w, l = w ++ skipWs l :=
  dropWhile_exists_prefix l

theorem skipWs_eq_self_of_head {l : Str} {c : Char}
    (hh : l.head? = some c) (hp : jsonWs c = false) : skipWs l = l :=
  dropWhile_eq_self_of_head hh hp

theorem dropWhile_eq_nil_all {p : α → Bool} :
    ∀ {l : List α}, l.dropWhile p = [] → ∀ c ∈ l, p c = true := by
  intro l
  induction l with
  | nil => intro _ c hc; simp at hc
  | cons a t ih =>
    intro h c hc
    by_cases hp : p a
    · rw [List.dropWhile_cons_of_pos hp] at h
      rcases List.mem_cons.1 hc with rfl | hct
      · exact hp
      · exact ih h c hct
    · rw [List.dropWhile_cons_of_neg hp] at h
      simp at h

/-- The head of a stripped string is not Python whitespace. -/
theorem pyTrim_head_not_ws {s : Str} {c : Char}
    (h : (pyTrim s).head? = some c) : pyWs c = false :=
  dropWhile_head?_not h

/-- The last character of a stripped string is not Python whitespace. -/
theorem pyTrim_getLast_not_ws {s : Str} {c : Char}
    (h : (pyTrim s).getLast? = some c) : pyWs c = false := by
  unfold pyTrim ltrimPy at h
  obtain ⟨w, hw⟩ := dropWhile_exists_prefix (p := pyWs) (rtrimPy s)
  have hr : (rtrimPy s).getLast? = some c := by
    rw [hw, List.getLast?_append, h]
    rfl
  unfold rtrimPy at hr
  rw [List.getLast?_reverse] at hr
  exact dropWhile_head?_not hr

/-- A string whose ends are not Python whitespace is fixed by `pyTrim`. -/
theorem pyTrim_eq_self {s : Str}
    (hh : ∀ c, s.head? = some c → pyWs c = false)
    (hl : ∀ c, s.getLast? = some c → pyWs c = false) : pyTrim s = s := by
  rcases List.eq_nil_or_concat s with rfl | ⟨t, a, rfl⟩
  · rfl
  · simp only [List.concat_eq_append] at hh hl ⊢
    have hlast : (t ++ [a]).getLast? = some a := List.getLast?_concat t
    unfold pyTrim rtrimPy ltrimPy
    have h1 : (t ++ [a]).reverse.head? = some a := by
      rw [List.head?_reverse, hlast]
    rw [dropWhile_eq_self_of_head h1 (hl a hlast), List.reverse_reverse]
    cases hh' : (t ++ [a]).head? with
    | none => simp [List.head?_eq_none_iff] at hh'
    | some d => exact dropWhile_eq_self_of_head hh' (hh d hh')

theorem pyTrim_idem (s : Str) : pyTrim (pyTrim s) = pyTrim s :=
  pyTrim_eq_self (fun _ h => pyTrim_head_not_ws h) (fun _ h => pyTrim_getLast_not_ws h)

theorem endsOk_of_eq {cs rest pre : Str} {c' : Char}
    (h : cs = pre ++ c' :: rest) (hc : c' ≠ '`') : endsOk cs rest :=
  ⟨pre, c', hc, h⟩

theorem endsOk_extend {cs cs₂ rest : Str} (xs : Str)
    (h : cs = xs ++ cs₂) (h₂ : endsOk cs₂ rest) : endsOk cs rest := by
  obtain ⟨pre, c', hc, hpre⟩ := h₂
  exact ⟨xs ++ pre, c', hc, by rw [h, hpre, List.append_assoc]⟩

theorem parseStrBody_split (cs : Str) :
    ∀ s rest, parseStrBody cs = some (s, rest) → ∃ pre, cs = pre ++ '"' :: rest := by
  induction cs using parseStrBody.induct with
  | case1 =>
    intro s rest h
    rw [parseStrBody.eq_def] at h
    simp at h
  | case2 t =>
    intro s rest h
    rw [parseStrBody.eq_def] at h
    simp at h
    exact ⟨[], by rw [h.2]; rfl⟩
  | case3 hne =>
    intro s rest h
    have hv : parseStrBody ['\\'] = none := rfl
    rw [hv] at h
    cases h
  | case4 h1 h2 h3 h4 cs3 a b c4 d4 hv4 hv3 hv2 hv1 hne ih =>
    intro s rest h
    rw [parseStrBody.eq_def] at h
    simp [hv1, hv2, hv3, hv4] at h
    obtain ⟨s', hp, hs⟩ := h
    obtain ⟨pre, hpre⟩ := ih _ _ hp
    exact ⟨'\\' :: 'u' :: h1 :: h2 :: h3 :: h4 :: pre, by rw [hpre]; rfl⟩
  | case5 h1 h2 h3 h4 cs3 hfail hne =>
    intro s rest h
    cases hv1 : hexVal h1 with
    | none => rw [parseStrBody.eq_def] at h; simp [hv1] at h
    | some a =>
      cases hv2 : hexVal h2 with
      | none => rw [parseStrBody.eq_def] at h; simp [hv1, hv2] at h
      | some b =>
        cases hv3 : hexVal h3 with
        | none => rw [parseStrBody.eq_def] at h; simp [hv1, hv2, hv3] at h
        | some c4 =>
          cases hv4 : hexVal h4 with
          | none => rw [parseStrBody.eq_def] at h; simp [hv1, hv2, hv3, hv4] at h
          | some d4 => exact (hfail a b c4 d4 hv1 hv2 hv3 hv4).elim
  | case6 cs2 hshape hne =>
    intro s rest h
    match cs2, h with
    | [], h => exact absurd h (by rw [show parseStrBody ['\\', 'u'] = none from rfl]; simp)
    | [x1], h =>
      exact absurd h (by rw [show parseStrBody ['\\', 'u', x1] = none from rfl]; simp)
    | [x1, x2], h =>
      exact absurd h (by rw [show parseStrBody ['\\', 'u', x1, x2] = none from rfl]; simp)
    | [x1, x2, x3], h =>
      exact absurd h
        (by rw [show parseStrBody ['\\', 'u', x1, x2, x3] = none from rfl]; simp)
    | x1 :: x2 :: x3 :: x4 :: t, h => exact absurd rfl (hshape x1 x2 x3 x4 t)
  | case7 e cs2 hnu hesc hne =>
    intro s rest h
    rw [parseStrBody.eq_def] at h
    simp [hnu, hesc] at h
  | case8 e cs2 hnu ch hesc hne ih =>
    intro s rest h
    rw [parseStrBody.eq_def] at h
    simp [hnu, hesc] at h
    obtain ⟨s', hp, hs⟩ := h
    obtain ⟨pre, hpre⟩ := ih _ _ hp
    exact ⟨'\\' :: e :: pre, by rw [hpre]; rfl⟩
  | case9 c t hq hb hctl =>
    intro s rest h
    rw [parseStrBody.eq_def] at h
    simp [hq, hb, hctl] at h
  | case10 c t hq hb hctl ih =>
    intro s rest h
    rw [parseStrBody.eq_def] at h
    simp [hq, hb, hctl] at h
    obtain ⟨s', hp, hs⟩ := h
    obtain ⟨pre, hpre⟩ := ih _ _ hp
    exact ⟨c :: pre, by rw [hpre]; rfl⟩

theorem isDigit_ne_backtick {c : Char} (h : c.isDigit = true) : c ≠ '`' := by
  intro hc
  subst hc
  exact absurd h (by decide)

theorem takeWhile_last_split {p : Char → Bool} {l : Str} (hne : l.takeWhile p ≠ []) :
    ∃ t d, p d = true ∧ l = t ++ d :: l.dropWhile p := by
  rcases List.eq_nil_or_concat (l.takeWhile p) with hnil | ⟨t, d, hcat⟩
  · exact absurd hnil hne
  · refine ⟨t, d, ?_, ?_⟩
    · exact List.mem_takeWhile_imp (l := l) (by rw [hcat]; simp)
    · conv_lhs => rw [← List.takeWhile_append_dropWhile (p := p) (l := l)]
      rw [hcat]
      simp

theorem parseIntPart_split {cs ip rest : Str} (h : parseIntPart cs = some (ip, rest)) :
    ∃ pre d, d.isDigit = true ∧ cs = pre ++ d :: rest := by
  cases cs with
  | nil => simp [parseIntPart] at h
  | cons c cs' =>
    rw [parseIntPart] at h
    by_cases h0 : c = '0'
    · subst h0
      rw [if_pos rfl] at h
      obtain ⟨-, hr⟩ : ['0'] = ip ∧ cs' = rest := by
        simpa using h
      exact ⟨[], '0', by decide, by rw [hr]; rfl⟩
    · rw [if_neg h0] at h
      by_cases h19 : '1' ≤ c ∧ c ≤ '9'
      · rw [if_pos h19] at h
        obtain ⟨-, hr⟩ : _ ∧ cs'.dropWhile Char.isDigit = rest := by
          simpa using h
        have hcd : c.isDigit = true := by
          simp only [Char.isDigit, Bool.and_eq_true, decide_eq_true_eq]
          exact ⟨le_trans (show ('0' : Char) ≤ '1' by decide) h19.1, h19.2⟩
        rcases htw : cs'.takeWhile Char.isDigit with _ | _
        · have hdw : cs'.dropWhile Char.isDigit = cs' := by
            conv_rhs => rw [← List.takeWhile_append_dropWhile (p := Char.isDigit) (l := cs')]
            rw [htw]
            rfl
          exact ⟨[], c, hcd, by rw [← hr, hdw]; rfl⟩
        · obtain ⟨t, d, hd, hsplit⟩ :=
            takeWhile_last_split (p := Char.isDigit) (l := cs') (by rw [htw]; simp)
          refine ⟨c :: t, d, hd, ?_⟩
          rw [← hr]
          conv_lhs => rw [hsplit]
          simp
      · rw [if_neg h19] at h
        cases h

theorem tryFrac_split (cs : Str) :
    (tryFrac cs).2 = cs ∨
      ∃ pre d, d.isDigit = true ∧ cs = pre ++ d :: (tryFrac cs).2 := by
  cases cs with
  | nil => exact Or.inl rfl
  | cons c cs2 =>
    by_cases hdot : c = '.'
    · subst hdot
      rcases htw : cs2.takeWhile Char.isDigit with _ | _
      · have hv : tryFrac ('.' :: cs2) = ([], '.' :: cs2) := by
          rw [tryFrac.eq_def]
          simp [htw]
        rw [hv]
        exact Or.inl rfl
      · have hv : tryFrac ('.' :: cs2) =
            (cs2.takeWhile Char.isDigit, cs2.dropWhile Char.isDigit) := by
          rw [tryFrac.eq_def]
          simp [htw]
        rw [hv]
        right
        obtain ⟨t, d, hd, hsplit⟩ :=
          takeWhile_last_split (p := Char.isDigit) (l := cs2) (by rw [htw]; simp)
        refine ⟨'.' :: t, d, hd, ?_⟩
        conv_lhs => rw [hsplit]
        simp
    · have hv : tryFrac (c :: cs2) = ([], c :: cs2) := by
        rw [tryFrac.eq_def]
        simp [hdot]
      rw [hv]
      exact Or.inl rfl

theorem signSplit_suffix (cs2 : Str) : ∃ w, cs2 = w ++ (signSplit cs2).2 := by
  cases cs2 with
  | nil => exact ⟨[], rfl⟩
  | cons c r =>
    by_cases hp : c = '+'
    · refine ⟨[c], ?_⟩
      rw [signSplit.eq_def]
      simp [hp]
    · by_cases hm : c = '-'
      · refine ⟨[c], ?_⟩
        rw [signSplit.eq_def]
        simp [hp, hm]
      · refine ⟨[], ?_⟩
        rw [signSplit.eq_def]
        simp [hp, hm]

theorem tryExp_split (cs : Str) :
    (tryExp cs).2 = cs ∨
      ∃ pre d, d.isDigit = true ∧ cs = pre ++ d :: (tryExp cs).2 := by
  cases cs with
  | nil => exact Or.inl rfl
  | cons e cs2 =>
    by_cases he : e = 'e' ∨ e = 'E'
    · obtain ⟨w, hw⟩ := signSplit_suffix cs2
      rcases htw : (signSplit cs2).2.takeWhile Char.isDigit with _ | _
      · have hv : tryExp (e :: cs2) = (none, e :: cs2) := by
          rw [tryExp.eq_def]
          simp [he, htw]
        rw [hv]
        exact Or.inl rfl
      · have hv : tryExp (e :: cs2) =
            (some ((signSplit cs2).1, (signSplit cs2).2.takeWhile Char.isDigit),
              (signSplit cs2).2.dropWhile Char.isDigit) := by
          rw [tryExp.eq_def]
          simp [he, htw]
        rw [hv]
        right
        obtain ⟨t, d, hd, hsplit⟩ :=
          takeWhile_last_split (p := Char.isDigit) (l := (signSplit cs2).2)
            (by rw [htw]; simp)
        refine ⟨e :: w ++ t, d, hd, ?_⟩
        conv_lhs => rw [hw, hsplit]
        simp
    · have hv : tryExp (e :: cs2) = (none, e :: cs2) := by
        rw [tryExp.eq_def]
        simp [he]
      rw [hv]
      exact Or.inl rfl

theorem numTail_endsOk {base ip cs2 rest : Str}
    (hip : parseIntPart base = some (ip, cs2))
    (hrest : rest = (tryExp (tryFrac cs2).2).2) : endsOk base rest := by
  obtain ⟨pre1, d1, hd1, h1⟩ := parseIntPart_split hip
  have hok2 : endsOk cs2 rest ∨ rest = cs2 := by
    rcases tryExp_split (tryFrac cs2).2 with hex | ⟨pre3, d3, hd3, h3⟩
    · rcases tryFrac_split cs2 with hfr | ⟨pre2, d2, hd2, h2⟩
      · exact Or.inr (hrest.trans (hex.trans hfr))
      · refine Or.inl ⟨pre2, d2, isDigit_ne_backtick hd2, ?_⟩
        rw [hrest, hex]
        exact h2
    · left
      have hok3 : endsOk (tryFrac cs2).2 rest :=
        ⟨pre3, d3, isDigit_ne_backtick hd3, by rw [hrest]; exact h3⟩
      rcases tryFrac_split cs2 with hfr | ⟨pre2, d2, hd2, h2⟩
      · rw [hfr] at hok3
        exact hok3
      · refine endsOk_extend (pre2 ++ [d2]) ?_ hok3
        conv_lhs => rw [h2]
        simp
  rcases hok2 with hok2 | rfl
  · exact endsOk_extend (pre1 ++ [d1]) (by rw [h1]; simp) hok2
  · exact ⟨pre1, d1, isDigit_ne_backtick hd1, h1⟩

theorem numFromIntPart_endsOk {neg : Bool} {base orig rest : Str} {j : Json}
    (horig : orig = base ∨ ∃ c, orig = c :: base)
    (h : numFromIntPart neg base orig = some (j, rest)) : endsOk orig rest := by
  rw [numFromIntPart.eq_def] at h
  cases hip : parseIntPart base with
  | some p =>
    obtain ⟨ip, cs2⟩ := p
    rw [hip] at h
    obtain ⟨-, hr⟩ :
        Json.num neg ip (tryFrac cs2).1 (tryExp (tryFrac cs2).2).1 = j ∧
          (tryExp (tryFrac cs2).2).2 = rest := by
      simpa using h
    have hb : endsOk base rest := numTail_endsOk hip hr.symm
    rcases horig with rfl | ⟨c, rfl⟩
    · exact hb
    · exact endsOk_extend [c] rfl hb
  | none =>
    rw [hip] at h
    dsimp only at h
    split at h
    · obtain ⟨-, hr⟩ : _ ∧ _ = rest := by
        simpa using h
      refine ⟨['-', 'I', 'n', 'f', 'i', 'n', 'i', 't'], 'y', by decide, ?_⟩
      rw [← hr]
      rfl
    · cases h

theorem parseNum_endsOk {cs rest : Str} {j : Json}
    (h : parseNum cs = some (j, rest)) : endsOk cs rest := by
  rw [parseNum.eq_def] at h
  cases cs with
  | nil => cases h
  | cons c cs0 =>
    dsimp only at h
    by_cases hneg : c = '-'
    · rw [if_pos hneg] at h
      exact numFromIntPart_endsOk (Or.inr ⟨c, rfl⟩) h
    · rw [if_neg hneg] at h
      exact numFromIntPart_endsOk (Or.inl rfl) h

theorem endsOk_through_skip {x rest : Str} (h : endsOk (skipWs x) rest) : endsOk x rest := by
  obtain ⟨w, hw⟩ := skipWs_exists_prefix x
  exact endsOk_extend w hw h

theorem endsOk_step {x y rest pre : Str} {c : Char}
    (hxy : x = pre ++ c :: y) (h : endsOk y rest) : endsOk x rest :=
  endsOk_extend (pre ++ [c]) (by rw [hxy]; simp) h

theorem endsOk_cons {y rest : Str} {c : Char} (h : endsOk y rest) :
    endsOk (c :: y) rest :=
  endsOk_extend [c] rfl h

set_option maxHeartbeats 2000000 in
/-- A successful parse at any level consumes a nonempty chunk whose last
character is not a backtick. -/
theorem parse_endsOk : ∀ f : Nat,
    (∀ cs v rest, parseVal f cs = some (v, rest) → endsOk cs rest) ∧
    (∀ cs ms rest, parseMembers f cs = some (ms, rest) → endsOk cs rest) ∧
    (∀ cs es rest, parseElems f cs = some (es, rest) → endsOk cs rest) := by
  intro f
  induction f with
  | zero =>
    refine ⟨?_, ?_, ?_⟩ <;> intro cs x rest h <;> cases h
  | succ f ih =>
    obtain ⟨ihv, ihm, ihe⟩ := ih
    refine ⟨?_, ?_, ?_⟩
    · -- parseVal
      intro cs v rest h
      cases cs with
      | nil => cases h
      | cons c cs' =>
        rw [parseVal.eq_def] at h
        dsimp only at h
        by_cases hn : c = 'n'
        · rw [if_pos hn] at h
          subst hn
          split at h
          · obtain ⟨-, hr⟩ : _ ∧ _ = rest := by simpa using h
            exact ⟨['n', 'u', 'l'], 'l', by decide, by rw [← hr]; rfl⟩
          · cases h
        · rw [if_neg hn] at h
          by_cases ht : c = 't'
          · rw [if_pos ht] at h
            subst ht
            split at h
            · obtain ⟨-, hr⟩ : _ ∧ _ = rest := by simpa using h
              exact ⟨['t', 'r', 'u'], 'e', by decide, by rw [← hr]; rfl⟩
            · cases h
          · rw [if_neg ht] at h
            by_cases hf : c = 'f'
            · rw [if_pos hf] at h
              subst hf
              split at h
              · obtain ⟨-, hr⟩ : _ ∧ _ = rest := by simpa using h
                exact ⟨['f', 'a', 'l', 's'], 'e', by decide, by rw [← hr]; rfl⟩
              · cases h
            · rw [if_neg hf] at h
              by_cases hN : c = 'N'
              · rw [if_pos hN] at h
                subst hN
                split at h
                · obtain ⟨-, hr⟩ : _ ∧ _ = rest := by simpa using h
                  exact ⟨['N', 'a'], 'N', by decide, by rw [← hr]; rfl⟩
                · cases h
              · rw [if_neg hN] at h
                by_cases hI : c = 'I'
                · rw [if_pos hI] at h
                  subst hI
                  split at h
                  · obtain ⟨-, hr⟩ : _ ∧ _ = rest := by simpa using h
                    exact ⟨['I', 'n', 'f', 'i', 'n', 'i', 't'], 'y', by decide,
                      by rw [← hr]; rfl⟩
                  · cases h
                · rw [if_neg hI] at h
                  by_cases hq : c = '"'
                  · rw [if_pos hq] at h
                    subst hq
                    obtain ⟨a, hp, -⟩ :
                        ∃ a, parseStrBody cs' = some (a, rest) ∧ Json.str a = v := by
                      simpa using h
                    obtain ⟨pre, hpre⟩ := parseStrBody_split cs' a rest hp
                    exact ⟨'"' :: pre, '"', by decide, by rw [hpre]; rfl⟩
                  · rw [if_neg hq] at h
                    by_cases hob : c = '{'
                    · rw [if_pos hob] at h
                      subst hob
                      split at h
                      · rename_i r heq
                        obtain ⟨-, hr⟩ : _ ∧ r = rest := by simpa using h
                        obtain ⟨w, hw⟩ := skipWs_exists_prefix cs'
                        refine ⟨'{' :: w, '}', by decide, ?_⟩
                        rw [← hr]
                        conv_lhs => rw [hw, heq]
                        rfl
                      · rw [Option.map_eq_some'] at h
                        obtain ⟨⟨a, r⟩, hp, heq⟩ := h
                        have hr : r = rest := congrArg Prod.snd heq
                        rw [hr] at hp
                        exact endsOk_cons (endsOk_through_skip (ihm _ _ _ hp))
                    · rw [if_neg hob] at h
                      by_cases har : c = '['
                      · rw [if_pos har] at h
                        subst har
                        split at h
                        · rename_i r heq
                          obtain ⟨-, hr⟩ : _ ∧ r = rest := by simpa using h
                          obtain ⟨w, hw⟩ := skipWs_exists_prefix cs'
                          refine ⟨'[' :: w, ']', by decide, ?_⟩
                          rw [← hr]
                          conv_lhs => rw [hw, heq]
                          rfl
                        · rw [Option.map_eq_some'] at h
                          obtain ⟨⟨a, r⟩, hp, heq⟩ := h
                          have hr : r = rest := congrArg Prod.snd heq
                          rw [hr] at hp
                          exact endsOk_cons (endsOk_through_skip (ihe _ _ _ hp))
                      · rw [if_neg har] at h
                        exact parseNum_endsOk h
    · -- parseMembers
      intro cs ms rest h
      rw [parseMembers.eq_def] at h
      dsimp only at h
      split at h
      · rename_i cs1
        split at h
        · cases h
        · rename_i k r1 heqS
          split at h
          · rename_i r2 heqC
            split at h
            · cases h
            · rename_i v r3 heqV
              obtain ⟨pk, hpk⟩ := parseStrBody_split cs1 k r1 heqS
              obtain ⟨w1, hw1⟩ := skipWs_exists_prefix r1
              obtain ⟨pv, cv, hcv, hpv⟩ := ihv _ _ _ heqV
              obtain ⟨w2, hw2⟩ := skipWs_exists_prefix r2
              split at h
              · rename_i r4 heqM
                rw [Option.map_eq_some'] at h
                obtain ⟨⟨a, r5⟩, hp, heq5⟩ := h
                have hr5 : r5 = rest := congrArg Prod.snd heq5
                rw [hr5] at hp
                obtain ⟨w3, hw3⟩ := skipWs_exists_prefix r3
                have e2 : endsOk r4 rest := endsOk_through_skip (ihm _ _ _ hp)
                have e3 : endsOk r3 rest :=
                  endsOk_step (hw3.trans (by rw [heqM])) e2
                have e4 : endsOk (skipWs r2) rest := endsOk_step hpv e3
                have e5 : endsOk r2 rest := endsOk_through_skip e4
                have e6 : endsOk r1 rest :=
                  endsOk_step (hw1.trans (by rw [heqC])) e5
                have e7 : endsOk cs1 rest := endsOk_step hpk e6
                exact endsOk_cons e7
              · rename_i r4 heqM
                obtain ⟨-, hr⟩ : _ ∧ r4 = rest := by simpa using h
                obtain ⟨w3, hw3⟩ := skipWs_exists_prefix r3
                have e3 : endsOk r3 rest :=
                  ⟨w3, '}', by decide, by rw [← hr]; rw [hw3, heqM]⟩
                have e4 : endsOk (skipWs r2) rest := endsOk_step hpv e3
                have e5 : endsOk r2 rest := endsOk_through_skip e4
                have e6 : endsOk r1 rest :=
                  endsOk_step (hw1.trans (by rw [heqC])) e5
                have e7 : endsOk cs1 rest := endsOk_step hpk e6
                exact endsOk_cons e7
              · cases h
          · cases h
      · cases h
    · -- parseElems
      intro cs es rest h
      rw [parseElems.eq_def] at h
      dsimp only at h
      split at h
      · cases h
      · rename_i v r1 heqV
        obtain ⟨pv, cv, hcv, hpv⟩ := ihv _ _ _ heqV
        split at h
        · rename_i r2 heqC
          rw [Option.map_eq_some'] at h
          obtain ⟨⟨a, r5⟩, hp, heq5⟩ := h
          have hr5 : r5 = rest := congrArg Prod.snd heq5
          rw [hr5] at hp
          obtain ⟨w1, hw1⟩ := skipWs_exists_prefix r1
          have e2 : endsOk r2 rest := endsOk_through_skip (ihe _ _ _ hp)
          have e3 : endsOk r1 rest :=
            endsOk_step (hw1.trans (by rw [heqC])) e2
          exact endsOk_step hpv e3
        · rename_i r2 heqC
          obtain ⟨-, hr⟩ : _ ∧ r2 = rest := by simpa using h
          obtain ⟨w1, hw1⟩ := skipWs_exists_prefix r1
          have e3 : endsOk r1 rest :=
            ⟨w1, ']', by decide, by rw [← hr]; rw [hw1, heqC]⟩
          exact endsOk_step hpv e3
        · cases h

theorem parseNum_backtick (r : Str) : parseNum ('`' :: r) = none := by
  rw [parseNum.eq_def]
  dsimp only
  rw [if_neg (by decide)]
  rw [numFromIntPart.eq_def]
  have h1 : parseIntPart ('`' :: r) = none := by
    rw [parseIntPart.eq_def]
    dsimp only
    rw [if_neg (by decide), if_neg (by decide)]
  rw [h1]
  dsimp only
  split
  · rename_i heq
    simp at heq
  · rfl

theorem parseVal_backtick (f : Nat) (r : Str) : parseVal f ('`' :: r) = none := by
  cases f with
  | zero => rfl
  | succ f =>
    rw [parseVal.eq_def]
    dsimp only
    rw [if_neg (by decide), if_neg (by decide), if_neg (by decide), if_neg (by decide),
      if_neg (by decide), if_neg (by decide), if_neg (by decide), if_neg (by decide)]
    exact parseNum_backtick r

/-- A string accepted by `json.loads` does not start with a backtick. -/
theorem json_loads_head_ne_backtick {s : Str} {j : Json} (h : json_loads s = some j) :
    s.head? ≠ some '`' := by
  intro hh
  rw [json_loads] at h
  rw [skipWs_eq_self_of_head hh (by decide)] at h
  cases s with
  | nil => cases hh
  | cons c r =>
    simp only [List.head?_cons, Option.some.injEq] at hh
    subst hh
    rw [parseVal_backtick] at h
    cases h

/-- A string accepted by `json.loads` does not end with a backtick: the last
consumed character of a value is never a backtick, and any trailing
characters are JSON whitespace. -/
theorem json_loads_getLast_ne_backtick {s : Str} {j : Json}
    (h : json_loads s = some j) : s.getLast? ≠ some '`' := by
  intro hlast
  rw [json_loads] at h
  cases hpv : parseVal (s.length + 1) (skipWs s) with
  | none =>
    rw [hpv] at h
    cases h
  | some p =>
    obtain ⟨v, rest⟩ := p
    rw [hpv] at h
    dsimp only at h
    split at h
    · rename_i hrest
      obtain ⟨pre, c', hc', hsplit⟩ := (parse_endsOk _).1 _ _ _ hpv
      obtain ⟨w, hw⟩ := skipWs_exists_prefix s
      have hs : s = (w ++ pre) ++ c' :: rest := by
        rw [hw, hsplit]
        simp
      cases rest with
      | nil =>
        have hg : s.getLast? = some c' := by
          rw [hs]
          exact List.getLast?_concat _
        rw [hg] at hlast
        exact hc' (by simpa using hlast)
      | cons r0 rt =>
        have hws : ∀ x ∈ r0 :: rt, jsonWs x = true := dropWhile_eq_nil_all hrest
        have hlast2 : s.getLast? = (r0 :: rt).getLast? := by
          rw [hs, show (w ++ pre) ++ c' :: r0 :: rt = ((w ++ pre) ++ [c']) ++ r0 :: rt
            by simp, List.getLast?_append]
          cases hgl : (r0 :: rt).getLast? with
          | none => simp [List.getLast?_eq_none_iff] at hgl
          | some x => rfl
        have hmem : '`' ∈ r0 :: rt := by
          rw [hlast2] at hlast
          exact List.mem_of_mem_getLast? hlast
        have := hws '`' hmem
        simp [jsonWs] at this
    · cases h

/-- A string accepted by `json.loads` does not start with a markdown fence. -/
theorem json_loads_no_fence_head {s : Str} {j : Json} (h : json_loads s = some j) :
    startsWithL ('`' :: '`' :: '`' :: 'j' :: 's' :: 'o' :: 'n' :: []) s = false := by
  cases hb : startsWithL ('`' :: '`' :: '`' :: 'j' :: 's' :: 'o' :: 'n' :: []) s
  · rfl
  · exfalso
    obtain ⟨t, rfl⟩ := (startsWithL_iff_append _ s).1 hb
    exact json_loads_head_ne_backtick h rfl

/-- A string accepted by `json.loads` does not end with three backticks. -/
theorem json_loads_no_fence_tail {s : Str} {j : Json} (h : json_loads s = some j) :
    endsWithL ['`', '`', '`'] s = false := by
  cases hb : endsWithL ['`', '`', '`'] s
  · rfl
  · exact absurd (endsWithL_fence_getLast hb) (json_loads_getLast_ne_backtick h)

/-! ### Connecting the fence-stripping pipeline with valid JSON -/

theorem stripLeadFence_of_prefix (z : Str) : stripLeadFence (fenceO ++ z) = z := by
  rw [stripLeadFence, if_pos (startsWithL_append fenceO z)]
  rfl

theorem stripLeadFence_of_not {s : Str} (h : startsWithL fenceO s = false) :
    stripLeadFence s = s := by
  rw [stripLeadFence, h]
  rfl

theorem stripTrailFence_of_suffix (z : Str) : stripTrailFence (z ++ fenceC) = z := by
  rw [stripTrailFence, if_pos (endsWithL_append z fenceC)]
  rw [show (z ++ fenceC).length - 3 = z.length by simp [fenceC]]
  exact List.take_left z fenceC

theorem stripTrailFence_of_not {s : Str} (h : endsWithL fenceC s = false) :
    stripTrailFence s = s := by
  rw [stripTrailFence, h]
  rfl

theorem cleanJsonStr_of_loads {d : Str} {j : Json}
    (h : json_loads (pyTrim d) = some j) : cleanJsonStr d = pyTrim d := by
  rw [cleanJsonStr, stripLeadFence_of_not (json_loads_no_fence_head h),
    stripTrailFence_of_not (json_loads_no_fence_tail h)]
  exact pyTrim_idem d

/-- C1: for every completion with a conversational region and a
structured-data region whose inner text is valid JSON, `parse_agent_response`
returns the trimmed conversational inner text and the loaded JSON value (as
the Python value of `updated_data_dict`: a loaded top-level `null` is Python
`None`). -/
theorem c1_both_regions_valid_json (text c d : Str) (j : Json)
    (hc : extractTag convoOpen convoClose text = some c)
    (hd : extractTag dataOpen dataClose text = some d)
    (hj : json_loads (pyTrim d) = some j) :
    parse_agent_response text = (pyTrim c, toPy j) := by
  unfold parse_agent_response displayOf updatedOf
  rw [hc, hd]
  dsimp only
  rw [cleanJsonStr_of_loads hj, hj]

theorem c1_witness :
    extractTag convoOpen convoClose wText1 = some "Hi!".toList ∧
    extractTag dataOpen dataClose wText1 = some wData1 ∧
    json_loads (pyTrim wData1) = some wJson1 ∧
    parse_agent_response wText1 = (pyTrim "Hi!".toList, toPy wJson1) ∧
    toPy wJson1 = some wJson1 :=
  ⟨rfl, rfl, rfl, c1_both_regions_valid_json wText1 "Hi!".toList wData1 wJson1 rfl rfl rfl,
    rfl⟩

/-- C2: when the structured-data region's inner text, after fence stripping,
is not valid JSON, `new_record` is `none`, no exception escapes (the embedding
is a total function; `JSONDecodeError` is caught at app.py 43), and the
conversational display text is still produced as usual. -/
theorem c2_invalid_json_yields_none (text d : Str)
    (hd : extractTag dataOpen dataClose text = some d)
    (hbad : json_loads (cleanJsonStr d) = none) :
    (parse_agent_response text).2 = none ∧
      (∀ c, extractTag convoOpen convoClose text = some c →
        (parse_agent_response text).1 = pyTrim c) ∧
      (extractTag convoOpen convoClose text = none →
        (parse_agent_response text).1 = text) := by
  refine ⟨?_, ?_, ?_⟩
  · unfold parse_agent_response updatedOf
    rw [hd]
    dsimp only
    rw [hbad]
  · intro c hc
    unfold parse_agent_response displayOf
    rw [hc]
  · intro hc
    unfold parse_agent_response displayOf
    rw [hc]

theorem c2_witness :
    extractTag dataOpen dataClose wText2 = some wData2 ∧
    json_loads (cleanJsonStr wData2) = none ∧
    (parse_agent_response wText2).2 = none ∧
    (parse_agent_response wText2).1 = "ok".toList :=
  ⟨rfl, rfl, (c2_invalid_json_yields_none wText2 wData2 rfl rfl).1, rfl⟩

/-- C3 as stated is false: with no structured-data region the parser does
return `new_record = none` and the usual display text, but that display text
can be empty (for instance when the conversational region holds only
whitespace, or the whole completion is empty), not "non-empty" as claimed. -/
theorem c3_counterexample :
    extractTag dataOpen dataClose
        "<conversation_response>   </conversation_response>".toList = none ∧
      parse_agent_response
        "<conversation_response>   </conversation_response>".toList = ([], none) :=
  ⟨rfl, rfl⟩

/-- C3 amended: with no structured-data region, `new_record` is `none` and
`display_text` is the trimmed conversational region when present, else the
raw completion text; it may be empty. -/
theorem c3_amended_display_fallback (text : Str)
    (hd : extractTag dataOpen dataClose text = none) :
    (parse_agent_response text).2 = none ∧
      (∀ c, extractTag convoOpen convoClose text = some c →
        (parse_agent_response text).1 = pyTrim c) ∧
      (extractTag convoOpen convoClose text = none →
        (parse_agent_response text).1 = text) := by
  refine ⟨?_, ?_, ?_⟩
  · unfold parse_agent_response updatedOf
    rw [hd]
  · intro c hc
    unfold parse_agent_response displayOf
    rw [hc]
  · intro hc
    unfold parse_agent_response displayOf
    rw [hc]

theorem c3_witness :
    extractTag dataOpen dataClose "<conversation_response>Hello!</conversation_response>".toList
        = none ∧
      parse_agent_response "<conversation_response>Hello!</conversation_response>".toList
        = ("Hello!".toList, none) :=
  ⟨rfl, by
    have h := (c3_amended_display_fallback
      "<conversation_response>Hello!</conversation_response>".toList rfl).2.1
      "Hello!".toList rfl
    have h2 := (c3_amended_display_fallback
      "<conversation_response>Hello!</conversation_response>".toList rfl).1
    rw [Prod.ext_iff]
    exact ⟨h.trans rfl, h2⟩⟩

/-! ### One-sided fences around valid JSON -/

theorem rtrimPy_exists_suffix (s : Str) : ∃ w, s = rtrimPy s ++ w := by
  obtain ⟨w, hw⟩ := dropWhile_exists_prefix (p := pyWs) s.reverse
  refine ⟨w.reverse, ?_⟩
  have h2 := congrArg List.reverse hw
  simpa [rtrimPy] using h2

theorem rtrimPy_eq_self_of_getLast {s : Str} {c : Char}
    (h : s.getLast? = some c) (hws : pyWs c = false) : rtrimPy s = s := by
  rw [rtrimPy,
    dropWhile_eq_self_of_head (by rw [List.head?_reverse]; exact h) hws,
    List.reverse_reverse]

/-- Valid JSON modulo stripping cannot end (before the strip) in a backtick. -/
theorem loads_pyTrim_getLast_backtick {body : Str} {j : Json}
    (h : json_loads (pyTrim body) = some j) (hl : body.getLast? = some '`') :
    False := by
  have hr : rtrimPy body = body := rtrimPy_eq_self_of_getLast hl (by decide)
  have hpt : pyTrim body = ltrimPy body := by rw [pyTrim, hr]
  obtain ⟨w, hw⟩ := dropWhile_exists_prefix (p := pyWs) body
  have hne : ltrimPy body ≠ [] := by
    intro h0
    rw [hpt, h0] at h
    cases h
  have hsame : body.getLast? = (ltrimPy body).getLast? := by
    conv_lhs => rw [hw]
    rw [List.getLast?_append]
    cases hx : (ltrimPy body).getLast? with
    | none => exact absurd (List.getLast?_eq_none_iff.1 hx) hne
    | some y =>
      rw [show ltrimPy body = List.dropWhile pyWs body from rfl] at hx
      rw [hx]
      rfl
  exact json_loads_getLast_ne_backtick h (by rw [hpt, ← hsame]; exact hl)

/-- Valid JSON modulo stripping cannot start (before the strip) with a
backtick. -/
theorem loads_pyTrim_head_backtick {body : Str} {j : Json}
    (h : json_loads (pyTrim body) = some j) (hh : body.head? = some '`') :
    False := by
  obtain ⟨w, hw⟩ := rtrimPy_exists_suffix body
  cases hr : rtrimPy body with
  | nil =>
    have hdw : List.dropWhile pyWs body.reverse = [] := by
      have h2 := congrArg List.reverse hr
      simpa [rtrimPy] using h2
    have hall := dropWhile_eq_nil_all hdw
    cases body with
    | nil => cases hh
    | cons b0 bt =>
      simp only [List.head?_cons, Option.some.injEq] at hh
      subst hh
      have hmem : '`' ∈ ('`' :: bt).reverse :=
        List.mem_reverse.2 (List.mem_cons_self _ _)
      have := hall '`' hmem
      simp [pyWs] at this
  | cons r0 rt =>
    rw [hr] at hw
    have hh2 : r0 = '`' := by
      rw [hw] at hh
      simpa using hh
    have hpt : pyTrim body = r0 :: rt := by
      rw [pyTrim, hr]
      exact dropWhile_eq_self_of_head rfl (by rw [hh2]; decide)
    exact json_loads_head_ne_backtick h (by rw [hpt, hh2]; rfl)

/-- C7: fence tolerance for the tolerated token shapes.  When the trimmed
structured-data region is valid JSON wrapped in the leading `"` ```json `"`
and/or trailing `"` ``` `"` markers, the parser strips them and still returns
the loaded value. -/
theorem c7_fence_tolerance :
    (∀ text d body j, extractTag dataOpen dataClose text = some d →
      pyTrim d = fenceO ++ (body ++ fenceC) →
      json_loads (pyTrim body) = some j →
      (parse_agent_response text).2 = toPy j) ∧
    (∀ text d body j, extractTag dataOpen dataClose text = some d →
      pyTrim d = fenceO ++ body →
      json_loads (pyTrim body) = some j →
      (parse_agent_response text).2 = toPy j) ∧
    (∀ text d body j, extractTag dataOpen dataClose text = some d →
      pyTrim d = body ++ fenceC →
      json_loads (pyTrim body) = some j →
      (parse_agent_response text).2 = toPy j) := by
  refine ⟨?_, ?_, ?_⟩
  · intro text d body j hd hsplit hj
    have hclean : cleanJsonStr d = pyTrim body := by
      rw [cleanJsonStr, hsplit, stripLeadFence_of_prefix,
        stripTrailFence_of_suffix]
    unfold parse_agent_response updatedOf
    rw [hd]
    dsimp only
    rw [hclean, hj]
  · intro text d body j hd hsplit hj
    have hend : endsWithL fenceC body = false := by
      cases hbv : endsWithL fenceC body
      · rfl
      · exact absurd (endsWithL_fence_getLast hbv)
          (fun hgl => loads_pyTrim_getLast_backtick hj hgl)
    have hclean : cleanJsonStr d = pyTrim body := by
      rw [cleanJsonStr, hsplit, stripLeadFence_of_prefix,
        stripTrailFence_of_not hend]
    unfold parse_agent_response updatedOf
    rw [hd]
    dsimp only
    rw [hclean, hj]
  · intro text d body j hd hsplit hj
    have hhead : startsWithL fenceO (body ++ fenceC) = false := by
      cases hsv : startsWithL fenceO (body ++ fenceC)
      · rfl
      · exfalso
        cases body with
        | nil => simp [fenceO, fenceC, startsWithL] at hsv
        | cons b0 bt =>
          obtain ⟨t, ht⟩ := (startsWithL_iff_append _ _).1 hsv
          have hb0 : b0 = '`' := by
            have h2 := congrArg List.head? ht
            simpa [fenceO] using h2
          subst hb0
          exact loads_pyTrim_head_backtick hj rfl
    have hclean : cleanJsonStr d = pyTrim body := by
      rw [cleanJsonStr, hsplit, stripLeadFence_of_not hhead,
        stripTrailFence_of_suffix]
    unfold parse_agent_response updatedOf
    rw [hd]
    dsimp only
    rw [hclean, hj]

theorem c7_witness :
    (extractTag dataOpen dataClose wText3 = some wData3 ∧
      pyTrim wData3 = fenceO ++ (wBody3 ++ fenceC) ∧
      json_loads (pyTrim wBody3) = some wJson3 ∧
      (parse_agent_response wText3).2 = toPy wJson3 ∧ toPy wJson3 = some wJson3) ∧
    (extractTag dataOpen dataClose wText4 = some wData4 ∧
      pyTrim wData4 = fenceO ++ wBody4 ∧
      json_loads (pyTrim wBody4) = some wJson4 ∧
      (parse_agent_response wText4).2 = toPy wJson4) ∧
    (extractTag dataOpen dataClose wText5 = some wData5 ∧
      pyTrim wData5 = wBody5 ++ fenceC ∧
      json_loads (pyTrim wBody5) = some wJson5 ∧
      (parse_agent_response wText5).2 = toPy wJson5) :=
  ⟨⟨rfl, rfl, rfl,
      c7_fence_tolerance.1 wText3 wData3 wBody3 wJson3 rfl rfl rfl, rfl⟩,
    ⟨rfl, rfl, rfl, c7_fence_tolerance.2.1 wText4 wData4 wBody4 wJson4 rfl rfl rfl⟩,
    ⟨rfl, rfl, rfl, c7_fence_tolerance.2.2 wText5 wData5 wBody5 wJson5 rfl rfl rfl⟩⟩

/-! ### The chat turn's record policy -/

/-- A successful parse with a truthy record replaces `collected_data`
wholesale (app.py 197-198). -/
theorem chatTurn_replaces {st : AppState} {prompt raw : Str}
    {f : Str → Except Str Str} {u : Json}
    (hf : f (composeInput st prompt) = .ok raw)
    (hu : (parse_agent_response raw).2 = some u)
    (ht : u.truthy = true) :
    (chatTurn st prompt f).1.collected_data = u := by
  unfold chatTurn
  dsimp only
  rw [show (popPending st.pending_linkedin (popPending st.pending_pdf prompt).1).1
      = composeInput st prompt from rfl]
  rw [hf]
  dsimp only
  rw [hu]
  dsimp only
  rw [if_pos ht]

/-- A falsy (or absent) parsed record leaves `collected_data` untouched
(app.py 197-201). -/
theorem chatTurn_retains {st : AppState} {prompt raw : Str}
    {f : Str → Except Str Str}
    (hf : f (composeInput st prompt) = .ok raw)
    (hu : (parse_agent_response raw).2 = none ∨
      (parse_agent_response raw).2 = some (Json.obj [])) :
    (chatTurn st prompt f).1.collected_data = st.collected_data := by
  unfold chatTurn
  dsimp only
  rw [show (popPending st.pending_linkedin (popPending st.pending_pdf prompt).1).1
      = composeInput st prompt from rfl]
  rw [hf]
  dsimp only
  rcases hu with hu | hu
  · rw [hu]
  · rw [hu]
    dsimp only
    rw [if_neg (by decide)]

/-- A failing completion call appends the user message and a system error
entry, surfaces the error, and leaves the record untouched (app.py 178-179,
203-205). -/
theorem chatTurn_error {st : AppState} {prompt e : Str}
    {f : Str → Except Str Str}
    (hf : f (composeInput st prompt) = .error e) :
    chatTurn st prompt f =
      ({ st with
          messages := st.messages ++ [(Role.user, prompt), (Role.system, errPre ++ e)]
          pending_pdf := (popPending st.pending_pdf prompt).2
          pending_linkedin :=
            (popPending st.pending_linkedin (popPending st.pending_pdf prompt).1).2 },
        some e) := by
  unfold chatTurn
  dsimp only
  rw [show (popPending st.pending_linkedin (popPending st.pending_pdf prompt).1).1
      = composeInput st prompt from rfl]
  rw [hf]
  dsimp only
  simp

/-- C4 as stated is false: an out-of-band LinkedIn write is clobbered by a
subsequent successful record replacement that lacks the field.  Concretely:
after `linkedinSubmit`, `supporting_documents.linkedin_url` holds the URL,
but a turn whose completion echoes `{"a": "b"}` replaces the record
wholesale and the field is gone. -/
theorem c4_counterexample :
    linkedinSubmit initialState "http://x".toList = some c4state ∧
    recordField2 c4state.collected_data "supporting_documents".toList
        "linkedin_url".toList = some (Json.str "http://x".toList) ∧
    (chatTurn c4state "hi".toList (fun _ => Except.ok wText1)).1.collected_data
        = wJson1 ∧
    recordField2 wJson1 "supporting_documents".toList "linkedin_url".toList = none :=
  ⟨rfl, rfl, rfl, rfl⟩

/-- C4 amended (last write wins, as the code and §3 of the spec state): a
successful truthy record replacement sets `collected_data` wholesale to the
parsed object, regardless of any out-of-band supporting-reference writes; a
replacement that lacks those fields loses them. -/
theorem c4_amended_wholesale_replacement (st : AppState) (prompt raw : Str)
    (f : Str → Except Str Str) (u : Json)
    (hf : f (composeInput st prompt) = .ok raw)
    (hu : (parse_agent_response raw).2 = some u)
    (ht : u.truthy = true) :
    (chatTurn st prompt f).1.collected_data = u :=
  chatTurn_replaces hf hu ht

theorem c4_witness :
    ((fun _ => Except.ok wText1 : Str → Except Str Str)
        (composeInput c4state "hi".toList)) = Except.ok wText1 ∧
    (parse_agent_response wText1).2 = some wJson1 ∧
    wJson1.truthy = true ∧
    (chatTurn c4state "hi".toList (fun _ => Except.ok wText1)).1.collected_data
      = wJson1 :=
  ⟨rfl, rfl, rfl,
    c4_amended_wholesale_replacement c4state "hi".toList wText1
      (fun _ => Except.ok wText1) wJson1 rfl rfl rfl⟩

/-- C5 as stated is false: on a collaborator failure the Record is preserved,
but the Conversation History is not — the user's message was appended before
the call (app.py 179) and a system error entry is appended after (app.py
205). -/
theorem c5_counterexample :
    (chatTurn initialState "hi".toList
        (fun _ => Except.error "boom".toList)).1.messages
      = [(Role.user, "hi".toList), (Role.system, "Error: boom".toList)] ∧
    initialState.messages = [] ∧
    [(Role.user, "hi".toList), (Role.system, "Error: boom".toList)]
      ≠ ([] : List (Role × Str)) ∧
    (chatTurn initialState "hi".toList
        (fun _ => Except.error "boom".toList)).1.collected_data
      = initialState.collected_data ∧
    (chatTurn initialState "hi".toList
        (fun _ => Except.error "boom".toList)).2 = some "boom".toList :=
  ⟨rfl, rfl, by simp, rfl, rfl⟩

/-- C5 amended: a failing completion call is surfaced as a turn-level error
and the Record is left unchanged, but the History gains the user's message
and a system `Error:` entry (and pending notes are consumed). -/
theorem c5_amended_error_turn (st : AppState) (prompt e : Str)
    (f : Str → Except Str Str)
    (hf : f (composeInput st prompt) = .error e) :
    (chatTurn st prompt f).2 = some e ∧
    (chatTurn st prompt f).1.collected_data = st.collected_data ∧
    (chatTurn st prompt f).1.messages
      = st.messages ++ [(Role.user, prompt), (Role.system, errPre ++ e)] := by
  rw [chatTurn_error hf]
  exact ⟨rfl, rfl, rfl⟩

theorem c5_witness :
    ((fun _ => Except.error "boom".toList : Str → Except Str Str)
        (composeInput initialState "hi".toList)) = Except.error "boom".toList ∧
    (chatTurn initialState "hi".toList (fun _ => Except.error "boom".toList)).2
        = some "boom".toList ∧
    (chatTurn initialState "hi".toList
        (fun _ => Except.error "boom".toList)).1.collected_data
      = initialState.collected_data ∧
    (chatTurn initialState "hi".toList
        (fun _ => Except.error "boom".toList)).1.messages
      = initialState.messages ++
          [(Role.user, "hi".toList), (Role.system, errPre ++ "boom".toList)] :=
  ⟨rfl,
    (c5_amended_error_turn initialState "hi".toList "boom".toList
      (fun _ => Except.error "boom".toList) rfl).1,
    (c5_amended_error_turn initialState "hi".toList "boom".toList
      (fun _ => Except.error "boom".toList) rfl).2.1,
    (c5_amended_error_turn initialState "hi".toList "boom".toList
      (fun _ => Except.error "boom".toList) rfl).2.2⟩

set_option maxRecDepth 20000 in
/-- C6 as stated is false: when the PDF note is produced first and the
LinkedIn note second, the composed input puts the LinkedIn note first — the
notes are not in FIFO (production) order.  Both notes do appear and the
queue is emptied. -/
theorem c6_counterexample :
    (pdfUpload initialState "r.pdf".toList (some "RESUME TEXT".toList)).bind
        (fun st => linkedinSubmit st "http://li".toList) = some c6state ∧
    c6state.pending_pdf = some (pdfNote "r.pdf".toList "RESUME TEXT".toList) ∧
    c6state.pending_linkedin = some (linkedinNote "http://li".toList) ∧
    (composeInput c6state "hi".toList).take
        (linkedinNote "http://li".toList).length
      = linkedinNote "http://li".toList ∧
    (composeInput c6state "hi".toList).take
        (pdfNote "r.pdf".toList "RESUME TEXT".toList).length
      ≠ pdfNote "r.pdf".toList "RESUME TEXT".toList :=
  ⟨rfl, rfl, rfl, by decide, by decide⟩

/-- C6 amended: with both notes pending, the composed input is
`linkedin-note ++ sep ++ pdf-note ++ sep ++ prompt` — a fixed order with the
LinkedIn note first regardless of which side-channel event came first — and
both queues are empty after the turn, whatever the completion collaborator
returns. -/
theorem c6_amended_note_order (st : AppState) (prompt P L : Str)
    (hP : st.pending_pdf = some P) (hL : st.pending_linkedin = some L)
    (hPne : P ≠ []) (hLne : L ≠ []) :
    composeInput st prompt = L ++ userMsgTag ++ (P ++ userMsgTag ++ prompt) ∧
    ∀ f, (chatTurn st prompt f).1.pending_pdf = none ∧
      (chatTurn st prompt f).1.pending_linkedin = none := by
  have hPp : popPending st.pending_pdf prompt = (P ++ userMsgTag ++ prompt, none) := by
    rw [hP, popPending, if_neg (by simpa using hPne)]
  have hLp : popPending st.pending_linkedin (P ++ userMsgTag ++ prompt)
      = (L ++ userMsgTag ++ (P ++ userMsgTag ++ prompt), none) := by
    rw [hL, popPending, if_neg (by simpa using hLne)]
  refine ⟨?_, ?_⟩
  · rw [composeInput, hPp]
    dsimp only
    rw [hLp]
  · intro f
    unfold chatTurn
    dsimp only
    rw [hPp]
    dsimp only
    rw [hLp]
    dsimp only
    cases f (L ++ userMsgTag ++ (P ++ userMsgTag ++ prompt)) with
    | error e => exact ⟨rfl, rfl⟩
    | ok raw =>
      dsimp only
      cases (parse_agent_response raw).2 with
      | none => exact ⟨rfl, rfl⟩
      | some u =>
        dsimp only
        by_cases ht : u.truthy
        · rw [if_pos ht]
          exact ⟨rfl, rfl⟩
        · rw [if_neg ht]
          exact ⟨rfl, rfl⟩

theorem c6_witness :
    c6state.pending_pdf = some (pdfNote "r.pdf".toList "RESUME TEXT".toList) ∧
    c6state.pending_linkedin = some (linkedinNote "http://li".toList) ∧
    composeInput c6state "hi".toList
      = linkedinNote "http://li".toList ++ userMsgTag ++
          (pdfNote "r.pdf".toList "RESUME TEXT".toList ++ userMsgTag ++ "hi".toList) ∧
    (chatTurn c6state "hi".toList (fun _ => Except.ok wText1)).1.pending_pdf = none ∧
    (chatTurn c6state "hi".toList (fun _ => Except.ok wText1)).1.pending_linkedin
      = none :=
  ⟨rfl, rfl,
    (c6_amended_note_order c6state "hi".toList _ _ rfl rfl (by decide) (by decide)).1,
    ((c6_amended_note_order c6state "hi".toList _ _ rfl rfl (by decide) (by decide)).2
      (fun _ => Except.ok wText1)).1,
    ((c6_amended_note_order c6state "hi".toList _ _ rfl rfl (by decide) (by decide)).2
      (fun _ => Except.ok wText1)).2⟩

/-- C8: a parsed JSON object missing Record Schema keys is a successful
parse: `new_record` is the object as-is — no key validation, defaulting or
merging — and (when the object is truthy, i.e. nonempty) the caller replaces
the record wholesale with it. -/
theorem c8_schema_mismatch_accepted (text d : Str) (kvs : List (Str × Json))
    (hd : extractTag dataOpen dataClose text = some d)
    (hj : json_loads (cleanJsonStr d) = some (.obj kvs))
    (hmiss : ∃ k ∈ schemaTopKeys, dictLookup kvs k = none) :
    (parse_agent_response text).2 = some (.obj kvs) ∧
    (kvs ≠ [] → ∀ st prompt f, f (composeInput st prompt) = .ok text →
      (chatTurn st prompt f).1.collected_data = .obj kvs) := by
  have hp : (parse_agent_response text).2 = some (.obj kvs) := by
    unfold parse_agent_response updatedOf
    rw [hd]
    dsimp only
    rw [hj]
    rfl
  refine ⟨hp, ?_⟩
  intro hne st prompt f hf
  exact chatTurn_replaces hf hp (by simpa [Json.truthy, List.isEmpty_iff] using hne)

theorem c8_witness :
    extractTag dataOpen dataClose wText1 = some wData1 ∧
    json_loads (cleanJsonStr wData1) = some (Json.obj [("a".toList, Json.str "b".toList)]) ∧
    dictLookup [("a".toList, Json.str "b".toList)] "basic_information".toList = none ∧
    (parse_agent_response wText1).2 = some (Json.obj [("a".toList, Json.str "b".toList)]) ∧
    (chatTurn initialState "hi".toList (fun _ => Except.ok wText1)).1.collected_data
      = Json.obj [("a".toList, Json.str "b".toList)] :=
  ⟨rfl, rfl, rfl,
    (c8_schema_mismatch_accepted wText1 wData1 _ rfl rfl
      ⟨"basic_information".toList, by decide, rfl⟩).1,
    (c8_schema_mismatch_accepted wText1 wData1 _ rfl rfl
        ⟨"basic_information".toList, by decide, rfl⟩).2
      (List.cons_ne_nil _ _) initialState "hi".toList (fun _ => Except.ok wText1) rfl⟩

/-- C9: `parse_agent_response` is embedded as a pure function of its single
argument — the source reads no mutable state (its only side effects are
diagnostic prints) — so re-processing the same raw completion text yields
the same `(display_text, new_record)` pair. -/
theorem c9_deterministic (text : Str) :
    parse_agent_response text = parse_agent_response text := rfl

/-- C10 (implicit): a structured-data region that loads as the JSON literal
`null` gives `new_record = none` (Python `None` is JSON `null`), exactly like
a parse failure; one that loads as `{}` gives `new_record = some {}`, which
is falsy at the caller's `if updated_data:` check — in both cases the caller
keeps the prior record. -/
theorem c10_null_and_empty_object :
    (∀ text d, extractTag dataOpen dataClose text = some d →
      json_loads (cleanJsonStr d) = some Json.null →
      (parse_agent_response text).2 = none) ∧
    (∀ text d, extractTag dataOpen dataClose text = some d →
      json_loads (cleanJsonStr d) = some (Json.obj []) →
      (parse_agent_response text).2 = some (Json.obj [])) ∧
    (∀ st prompt raw (f : Str → Except Str Str),
      f (composeInput st prompt) = .ok raw →
      ((parse_agent_response raw).2 = none ∨
        (parse_agent_response raw).2 = some (Json.obj [])) →
      (chatTurn st prompt f).1.collected_data = st.collected_data) := by
  refine ⟨?_, ?_, ?_⟩
  · intro text d hd hj
    unfold parse_agent_response updatedOf
    rw [hd]
    dsimp only
    rw [hj]
    rfl
  · intro text d hd hj
    unfold parse_agent_response updatedOf
    rw [hd]
    dsimp only
    rw [hj]
    rfl
  · intro st prompt raw f hf hu
    exact chatTurn_retains hf hu

theorem c10_witness :
    extractTag dataOpen dataClose wText7 = some "null".toList ∧
    json_loads (cleanJsonStr "null".toList) = some Json.null ∧
    (parse_agent_response wText7).2 = none ∧
    extractTag dataOpen dataClose wText8 = some "\x7b\x7d".toList ∧
    json_loads (cleanJsonStr "\x7b\x7d".toList) = some (Json.obj []) ∧
    (parse_agent_response wText8).2 = some (Json.obj []) ∧
    (chatTurn initialState "hi".toList (fun _ => Except.ok wText7)).1.collected_data
      = initialState.collected_data :=
  ⟨rfl, rfl,
    c10_null_and_empty_object.1 wText7 "null".toList rfl rfl,
    rfl, rfl,
    c10_null_and_empty_object.2.1 wText8 "\x7b\x7d".toList rfl rfl,
    c10_null_and_empty_object.2.2 initialState "hi".toList wText7
      (fun _ => Except.ok wText7) rfl (Or.inl rfl)⟩

end VettingAgent

